import Mathlib

/-!
Verification of the PharmWatch ingestion core.

This file gives a shallow embedding of the core pipeline of the repository:

* `sp_merge_day.py` — `to_float`, `unit_kind`, `per100`, the pandas
  promotion `groupby` aggregation, the left merge and the CSV serialization
  of the canonical intermediate file;
* `load_sqlite.py` — `agorot`, `booly`, `norm` and the `main` loop that
  upserts `stores` / `products` / `current_prices` and appends
  `price_observations`, together with its transaction structure.

Modelling conventions:

* Python strings are Lean `String`s; per-character work happens on
  `List Char` (`String.toList`).  Python `str.strip` is modelled by
  `pyStrip` / `trimChars` (ASCII whitespace), `str.lower` by `pyLower`.
* Python binary floats are modelled by exact rationals `ℚ`.  The decimal
  literals handled by this pipeline (price and quantity strings with a few
  decimal digits) are represented exactly by both, and Python's
  `round` built-in (round-half-to-even) is modelled exactly by
  `roundHalfEven`.  Exponent forms (`1e3`), underscores, `inf` and `nan`
  accepted by Python's `float` are outside the model, as are the binary
  representation artifacts of IEEE doubles.
* `dict.get` results are `Option String`; a missing key is `none`.
* SQLite tables are total functions from their primary key to an optional
  row; `INSERT ... ON CONFLICT DO UPDATE` becomes an explicit upsert
  function, and SQL `COALESCE` is the `coal` function below.
-/

namespace PharmWatch

/-- SQL `COALESCE` on two nullable values: the first when non-null,
otherwise the second. -/
def coal {α : Type} (a b : Option α) : Option α :=
  match a with
  | some v => some v
  | none => b

/-- Python `','` to `'.'` single-character translation used by
`str.replace(",", ".")` (both `agorot` and `to_float` do this). -/
def c2d (c : Char) : Char := if c = ',' then '.' else c

/-- `str.replace(",", ".")` on a character list. -/
def mapComma (l : List Char) : List Char := l.map c2d

/-- Value of a string of decimal digits. -/
def digsVal (l : List Char) : ℕ := l.foldl (fun a c => 10 * a + (c.toNat - 48)) 0

/-- Strip ASCII whitespace from both ends, as Python `str.strip()` and the
implicit stripping done by `float(...)`. -/
def trimChars (l : List Char) : List Char :=
  ((l.dropWhile Char.isWhitespace).reverse.dropWhile Char.isWhitespace).reverse

/-- Python `str.strip()` on strings. -/
def pyStrip (s : String) : String := String.mk (trimChars s.toList)

/-- Lower-case one character (ASCII range; the `booly` tokens this feeds
are ASCII). -/
def lowerChar (c : Char) : Char :=
  if 65 ≤ c.toNat ∧ c.toNat ≤ 90 then Char.ofNat (c.toNat + 32) else c

/-- Python `str.lower()` on strings. -/
def pyLower (s : String) : String := String.mk (s.toList.map lowerChar)

/-- Parse an unsigned decimal literal `digits [. digits]` (at least one
digit overall), the decimal-literal subset of Python `float`. -/
def parseUnsigned (l : List Char) : Option ℚ :=
  let ip := l.takeWhile Char.isDigit
  let rest := l.dropWhile Char.isDigit
  match rest with
  | [] => if ip.isEmpty then none else some ((digsVal ip : ℚ))
  | '.' :: fp =>
      if fp.all Char.isDigit && !(ip.isEmpty && fp.isEmpty) then
        some ((digsVal ip : ℚ) + (digsVal fp : ℚ) / (10 : ℚ) ^ fp.length)
      else none
  | _ => none

/-- Python `float(s)` on the decimal-literal fragment: optional sign around
an unsigned decimal literal, surrounding whitespace ignored; `none` models
the `ValueError` raised on anything else. -/
def pyFloatL (l : List Char) : Option ℚ :=
  match trimChars l with
  | '+' :: r => parseUnsigned r
  | '-' :: r => (parseUnsigned r).map (fun q => -q)
  | r => parseUnsigned r

/-- Python's built-in `round` to an integer: round half to even.
`Rat.floor` is used rather than `⌊·⌋` so the definition evaluates by
kernel reduction; they agree (`ratFloor_eq` below). -/
def roundHalfEven (q : ℚ) : ℤ :=
  if q - (q.floor : ℚ) < 1 / 2 then q.floor
  else if 1 / 2 < q - (q.floor : ℚ) then q.floor + 1
  else if q.floor % 2 = 0 then q.floor else q.floor + 1

/-- Round half away from zero (the rounding mode the specification asks
for; the code does not use it). -/
def roundHalfAway (q : ℚ) : ℤ :=
  if 0 ≤ q then (q + 1 / 2).floor else -(-q + 1 / 2).floor

/-- Python `round(x, 2)`: round to the nearest hundredth, half to even. -/
def round2 (q : ℚ) : ℚ := (roundHalfEven (q * 100) : ℚ) / 100

/-! ### `load_sqlite.py` helpers -/

/-- Core of `load_sqlite.agorot` on the characters of the input string:
`None`/empty/`"None"` guard, then `float(str(x).replace(",", "."))`
converted to integer minor units by `int(round(v * 100))`. -/
def agorotL (l : List Char) : Option ℤ :=
  if l = [] ∨ l = "None".toList then none
  else
    match pyFloatL (mapComma l) with
    | none => none
    | some q => some (roundHalfEven (q * 100))

/-- `load_sqlite.agorot` on an optional CSV field. -/
def agorot (x : Option String) : Option ℤ :=
  match x with
  | none => none
  | some s => agorotL s.toList

/-- The accepted truthy tokens of `load_sqlite.booly`. -/
def boolyTokens : List String := ["1", "true", "yes", "y", "t"]

/-- `load_sqlite.booly` on a string: `1` iff the stripped, lowercased value
is one of the accepted tokens. -/
def boolyS (s : String) : ℕ := if pyLower (pyStrip s) ∈ boolyTokens then 1 else 0

/-- `load_sqlite.booly` on an optional field; `str(None) = "None"` which is
not an accepted token. -/
def booly (x : Option String) : ℕ := boolyS (x.getD "None")

/-- `load_sqlite.norm`: trim, and return `None` when empty so that the SQL
`COALESCE` keeps the existing database value. -/
def norm (s : Option String) : Option String :=
  let v := pyStrip (s.getD "")
  if v = "" then none else some v

/-- Python `x or y` for strings (`y` when `x` is `None` or empty). -/
def pyOrS (x : Option String) (d : String) : String :=
  match x with
  | some s => if s = "" then d else s
  | none => d

/-! ### `sp_merge_day.py` pure functions -/

/-- `sp_merge_day.to_float`: replace `','` by `'.'`, strip, parse as float;
`none` models the swallowed exception. -/
def to_float (s : String) : Option ℚ := pyFloatL (mapComma s.toList)

/-- An apostrophe character, used inside two Hebrew unit labels. -/
def apos : Char := Char.ofNat 39

/-- The Hebrew gram abbreviation with an apostrophe. -/
def gimelApos : String := "ג".push apos

/-- The Hebrew unit abbreviation with an apostrophe. -/
def yhApos : String := "יח".push apos

/-- Is `n` a prefix of `h`, on characters. -/
def firstOfL : List Char → List Char → Bool
  | [], _ => true
  | _ :: _, [] => false
  | a :: as, b :: bs => a = b && firstOfL as bs

/-- Python substring test `n in h`, on characters. -/
def containsSub (n : List Char) : List Char → Bool
  | [] => n.isEmpty
  | b :: t => firstOfL n (b :: t) || containsSub n t

/-- Python `needle in hay` on strings. -/
def strContains (hay needle : String) : Bool := containsSub needle.toList hay.toList

/-- `sp_merge_day.unit_kind`: classify a unit-label string into
`"g"`, `"ml"`, `"unit"` or `none` (unknown), by the exact vocabulary of the
source. -/
def unit_kind (s : String) : Option String :=
  let t := pyStrip s
  if t = "גרם" ∨ t = gimelApos ∨ t = "ג" ∨ t = "גר" then some "g"
  else if strContains t "מ\"ל" ∨ strContains t "מ״ל" ∨ strContains t "מ”ל" ∨
      t = "מל" ∨ strContains t "מיליליטר" then some "ml"
  else if t = "יחידה" ∨ t = yhApos ∨ t = "יחידות" ∨ t = "unit" then some "unit"
  else none

/-- `sp_merge_day.per100`: `(None, None)` when price or quantity is
missing, the quantity is non-positive, or the kind is not `"g"`/`"ml"`;
otherwise `round(price / (qty / 100), 2)` with the matching label. -/
def per100 (price qty : Option ℚ) (kind : Option String) : Option ℚ × Option String :=
  match price, qty with
  | some p, some q =>
      if q ≤ 0 then (none, none)
      else if kind = some "g" then (some (round2 (p / (q / 100))), some "per_100g")
      else if kind = some "ml" then (some (round2 (p / (q / 100))), some "per_100ml")
      else (none, none)
  | _, _ => (none, none)

/-- One normalized promotion line of the `PromoFull` CSV (missing columns
default to `""` via `promos.get(..., "")`). -/
structure PromoLine where
  itemCode : String
  promotionId : String
  rewardType : String
  isGift : String
  allowMulti : String
deriving DecidableEq

/-- Python `sorted` on strings (code-point lexicographic). -/
def sortStr (l : List String) : List String := l.insertionSort (· ≤ ·)

/-- The aggregation `",".join(sorted({v for v in s if v}))` of
`sp_merge_day.main`. -/
def joinSortedDedup (vs : List String) : String :=
  String.intercalate "," (sortStr (vs.filter (fun v => v ≠ "")).dedup)

/-- One aggregated promotion group (the four aggregate columns). -/
structure AggR where
  promotionIds : String
  rewardTypes : String
  anyGift : String
  anyMulti : String
deriving DecidableEq

/-- The promotion lines of one `groupby` group: those whose raw `ItemCode`
equals the key, in input order. -/
def groupOf (lines : List PromoLine) (b : String) : List PromoLine :=
  lines.filter (fun l => l.itemCode == b)

/-- The aggregate of one group: sorted deduplicated comma-joins of the
non-empty ids and reward types, and `"1"`/`"0"` for whether any raw flag
equals `"1"` (note: the raw string `"1"`, not `booly`). -/
def groupAgg (g : List PromoLine) : AggR :=
  ⟨joinSortedDedup (g.map (fun l => l.promotionId)),
   joinSortedDedup (g.map (fun l => l.rewardType)),
   if g.any (fun l => l.isGift == "1") then "1" else "0",
   if g.any (fun l => l.allowMulti == "1") then "1" else "0"⟩

/-- The promotion aggregate for one barcode: absent when the batch has no
line for it, otherwise the group aggregate. -/
def aggregate (lines : List PromoLine) (b : String) : Option AggR :=
  if groupOf lines b = [] then none else some (groupAgg (groupOf lines b))

/-! ### The merge stage of `sp_merge_day.main` -/

/-- One raw `PriceFull` CSV row under the canonical column names chosen by
`choose` (missing optional columns default to `""` via `prices.get`).
`pandas.read_csv(dtype=str, keep_default_na=False)` makes every cell a
string. -/
structure PriceRow where
  itemCode : String
  itemName : String
  itemPrice : String
  quantity : String
  unitQty : String
  manufacturerName : String
  manufactureCountry : String
  manufacturerItemDescription : String
  priceUpdateDate : String
deriving DecidableEq

/-- One row of the normalized price frame `dfp` of `sp_merge_day.main`. -/
structure DfpRow where
  barcode : String
  name : String
  price : Option ℚ
  quantity : Option ℚ
  unitQtyText : String
  manufacturer : String
  country : String
  description : String
  priceUpdateDate : String
  qtyUnit : Option String
  unitPrice : Option ℚ
  unitLabel : Option String
deriving DecidableEq

/-- Build one `dfp` row: strip the barcode, parse price and quantity with
`to_float`, classify the unit and compute the per-100 price. -/
def dfpOf (p : PriceRow) : DfpRow :=
  let price := to_float p.itemPrice
  let qty := to_float p.quantity
  let kind := unit_kind p.unitQty
  let pl := per100 price qty kind
  ⟨pyStrip p.itemCode, p.itemName, price, qty, p.unitQty, p.manufacturerName,
   p.manufactureCountry, p.manufacturerItemDescription, p.priceUpdateDate,
   kind, pl.1, pl.2⟩

/-- The distinct group keys of the promotion `groupby`, in the sorted order
pandas produces. -/
def aggKeys (promos : List PromoLine) : List String :=
  sortStr (promos.map (fun l => l.itemCode)).dedup

/-- The aggregate frame `agg`: one row per distinct raw `ItemCode`, whose
barcode column is stripped only after aggregation
(`agg["barcode"].str.strip()`). -/
def aggRowsOf (promos : List PromoLine) : List (String × AggR) :=
  (aggKeys promos).map (fun k => (pyStrip k, groupAgg (groupOf promos k)))

/-- One row of the merged frame: a price row plus its matched aggregate
(`none` when the left join found no aggregate, i.e. the NaN row). -/
structure OutRec where
  d : DfpRow
  agg : Option AggR
deriving DecidableEq

/-- The left merge `dfp.merge(agg, on="barcode", how="left")`: each price
row paired with every aggregate row of equal (stripped) barcode, or with
`none` when there is no match. -/
def mergedRecsOf (prices : List PriceRow) (promos : List PromoLine) : List OutRec :=
  (prices.map dfpOf).flatMap (fun d =>
    if ((aggRowsOf promos).filter (fun a => a.1 == d.barcode)).isEmpty then [⟨d, none⟩]
    else ((aggRowsOf promos).filter (fun a => a.1 == d.barcode)).map (fun a => ⟨d, some a.2⟩))

/-- Smallest exponent `k` with `d ∣ 10 ^ k` (the denominators reaching the
serializer always divide a power of ten, being produced by decimal
parsing and `round2`); fuel `d` suffices for such denominators. -/
def tens (d : ℕ) : ℕ :=
  (((List.range (d + 1)).find? (fun k => 10 ^ k % d = 0)).getD d)

/-- Left-pad a digit string with zeros to length `k`. -/
def padZeros (s : String) (k : ℕ) : String :=
  String.mk (List.replicate (k - s.length) '0') ++ s

/-- Python `str(float)` on the exact decimal rationals this pipeline
produces: the shortest decimal digit string, with `".0"` appended to
integers (`str(500.0) = "500.0"`, `str(12.5) = "12.5"`).  Scientific
notation for very small or very large magnitudes is outside the model. -/
def floatRepr (q : ℚ) : String :=
  let sgn := if q < 0 then "-" else ""
  let a := |q|
  let k := tens a.den
  let n := (a * (10 : ℚ) ^ k).num.toNat
  if k = 0 then sgn ++ toString n ++ ".0"
  else sgn ++ toString (n / 10 ^ k) ++ "." ++ padZeros (toString (n % 10 ^ k)) k

/-- Serialization of a nullable float cell: pandas `to_csv` writes NaN/None
as the empty string. -/
def optFloatCell (x : Option ℚ) : String :=
  match x with
  | some q => floatRepr q
  | none => ""

/-- Serialization of a nullable string cell. -/
def optStrCell (x : Option String) : String := x.getD ""

/-- The sixteen output cells of one merged row, in the column order of
`cols` in `sp_merge_day.main`.  `has_promo` is the boolean literal pandas
prints for `merged["PromotionIds"].fillna("").ne("")`; the four aggregate
cells of an unmatched row are NaN and serialize to `""`. -/
def cellsOf (o : OutRec) : List String :=
  [o.d.barcode, o.d.name, optFloatCell o.d.price, optFloatCell o.d.quantity,
   optStrCell o.d.qtyUnit, optFloatCell o.d.unitPrice, optStrCell o.d.unitLabel,
   (match o.agg with
    | some a => if a.promotionIds = "" then "False" else "True"
    | none => "False"),
   (match o.agg with | some a => a.promotionIds | none => ""),
   (match o.agg with | some a => a.rewardTypes | none => ""),
   (match o.agg with | some a => a.anyGift | none => ""),
   (match o.agg with | some a => a.anyMulti | none => ""),
   o.d.manufacturer, o.d.country, o.d.description, o.d.priceUpdateDate]

/-- The header of the canonical intermediate file. -/
def header16 : List String :=
  ["barcode", "name", "price", "quantity", "qty_unit", "computed_unit_price",
   "computed_unit_label", "has_promo", "PromotionIds", "RewardTypes",
   "AnyGift", "AnyMulti", "manufacturer", "country", "description",
   "price_update_date"]

/-- Sort key of `sort_values(["name", "barcode"])`: name first, then
barcode, lexicographically. -/
def recKey (o : OutRec) : String ×ₗ String := toLex (o.d.name, o.d.barcode)

/-- The row order of the emitted file. -/
def recLe (a b : OutRec) : Prop := recKey a ≤ recKey b

instance : DecidableRel recLe := fun a b =>
  inferInstanceAs (Decidable (recKey a ≤ recKey b))

instance recLe.isTotal : IsTotal OutRec recLe := ⟨fun a b => le_total (recKey a) (recKey b)⟩

instance recLe.isTrans : IsTrans OutRec recLe := ⟨fun _ _ _ h h2 => le_trans h h2⟩

/-- The same order on serialized rows (cell 1 is `name`, cell 0 is
`barcode`). -/
def rowLe (x y : List String) : Prop :=
  toLex (x.getD 1 "", x.getD 0 "") ≤ toLex (y.getD 1 "", y.getD 0 "")

/-- The canonical intermediate file emitted by `sp_merge_day.main`: a
header row followed by the merged rows sorted by name then barcode.
`none` models the `ValueError` raised by `zip(*dfp.apply(...))` when the
price table is empty: no file is emitted at all. -/
def mergeDay (prices : List PriceRow) (promos : List PromoLine) :
    Option (List (List String)) :=
  if prices.isEmpty then none
  else some (header16 :: ((mergedRecsOf prices promos).insertionSort recLe).map cellsOf)

/-! ### The loader `load_sqlite.main` -/

/-- One row of the merged CSV as `csv.DictReader` hands it to
`load_sqlite.main`: each referenced column as an optional string
(`row.get`). -/
structure Row where
  barcode : Option String
  name : Option String
  manufacturer : Option String
  country : Option String
  description : Option String
  price : Option String
  quantity : Option String
  qty_unit : Option String
  computed_unit_price : Option String
  has_promo : Option String
  RewardTypes : Option String
  reward_types : Option String
deriving DecidableEq

/-- The effective barcode `(row.get("barcode") or "").strip()`. -/
def keyOf (r : Row) : String := pyStrip (r.barcode.getD "")

/-- `price_a = agorot(row.get("price"))`. -/
def priceA (r : Row) : Option ℤ := agorot r.price

/-- The row passes the essential-field guard
`if not barcode or price_a is None: continue`. -/
def okRow (r : Row) : Bool := !(keyOf r == "") && (priceA r).isSome

/-- The quantity field: `None` unless present and non-empty, then
`float(...)` with `ValueError` becoming `None`. -/
def qtyOf (r : Row) : Option ℚ :=
  match r.quantity with
  | none => none
  | some s => if s = "" then none else pyFloatL s.toList

/-- `qty_unit = row.get("qty_unit") or None`. -/
def qtyUnitOf (r : Row) : Option String :=
  match r.qty_unit with
  | none => none
  | some s => if s = "" then none else some s

/-- `per100_a = agorot(row.get("computed_unit_price"))`. -/
def per100A (r : Row) : Option ℤ := agorot r.computed_unit_price

/-- `has_promo = booly(row.get("has_promo"))`. -/
def hasPromoOf (r : Row) : ℕ := booly r.has_promo

/-- `reward_types = row.get("RewardTypes") or row.get("reward_types") or ""`. -/
def rewardOf (r : Row) : String := pyOrS r.RewardTypes (pyOrS r.reward_types "")

/-- A `products` table row (without the key). -/
@[ext] structure ProductR where
  name : Option String
  manufacturer : Option String
  country : Option String
  description : Option String
deriving DecidableEq

/-- The incoming `products` values of one CSV row.  The source swaps the
columns deliberately: `products.name` receives the long CSV `description`
and `products.description` receives the short CSV `name`. -/
def prodInc (r : Row) : ProductR :=
  ⟨norm r.description, norm r.manufacturer, norm r.country, norm r.name⟩

/-- The `products` upsert: plain insert for a fresh barcode, and
`COALESCE(excluded.field, products.field)` on conflict. -/
def upsertP (inc : ProductR) (old : Option ProductR) : ProductR :=
  match old with
  | none => inc
  | some p =>
      ⟨coal inc.name p.name, coal inc.manufacturer p.manufacturer,
       coal inc.country p.country, coal inc.description p.description⟩

/-- A `current_prices` table row (without the key). -/
structure CPriceR where
  price : Option ℤ
  quantity : Option ℚ
  qtyUnit : Option String
  per100 : Option ℤ
  hasPromo : ℕ
  reward : String
  lastSeen : String
deriving DecidableEq

/-- The `current_prices` values of one CSV row: a full replacement. -/
def cpOf (at_ : String) (r : Row) : CPriceR :=
  ⟨priceA r, qtyOf r, qtyUnitOf r, per100A r, hasPromoOf r, rewardOf r, at_⟩

/-- A `price_observations` table row (without the key). -/
structure ObsR where
  price : Option ℤ
  per100 : Option ℤ
  hasPromo : ℕ
  reward : String
  sourceFile : String
deriving DecidableEq

/-- The observation values of one CSV row. -/
def obsOf (src : String) (r : Row) : ObsR :=
  ⟨priceA r, per100A r, hasPromoOf r, rewardOf r, src⟩

/-- A `stores` table row (without the key). -/
structure StoreR where
  chainId : Option String
  name : Option String
  city : Option String
  address : Option String
  lastSeen : String
deriving DecidableEq

/-- The SQLite database state: each table as a map from primary key to an
optional row. -/
structure DB where
  stores : String → Option StoreR
  products : String → Option ProductR
  current : String → String → Option CPriceR
  obs : String → String → String → Option ObsR

/-- The database with empty tables. -/
def emptyDB : DB := ⟨fun _ => none, fun _ => none, fun _ _ => none, fun _ _ _ => none⟩

/-- The store upsert of `load_sqlite.main`: `chain_id` and `last_seen_at`
replaced, `name`/`city`/`address` coalesced with the existing row. -/
def upsertStore (sid chain : String) (sname scity saddr : Option String)
    (at_ : String) (db : DB) : DB :=
  { db with
    stores := fun x =>
      if x = sid then
        some (match db.stores sid with
          | none => ⟨some chain, sname, scity, saddr, at_⟩
          | some st =>
              ⟨some chain, coal sname st.name, coal scity st.city,
               coal saddr st.address, at_⟩)
      else db.stores x }

/-- The database effect of one CSV row in the loop of `load_sqlite.main`:
skip on the essential-field guard, otherwise upsert `products`, replace
`current_prices` and insert the observation unless its key already exists
(the swallowed `IntegrityError`). -/
def stepDB (sid at_ src : String) (db : DB) (r : Row) : DB :=
  if okRow r then
    let b := keyOf r
    { stores := db.stores
      products := fun x =>
        if x = b then some (upsertP (prodInc r) (db.products b)) else db.products x
      current := fun s x =>
        if s = sid ∧ x = b then some (cpOf at_ r) else db.current s x
      obs := fun s x t =>
        if s = sid ∧ x = b ∧ t = at_ then coal (db.obs sid b at_) (some (obsOf src r))
        else db.obs s x t }
  else db

/-- The four counters printed at the end of `load_sqlite.main`. -/
structure Counts where
  rowsRead : ℕ
  insertedProducts : ℕ
  upsertCurrent : ℕ
  appendedObs : ℕ
deriving DecidableEq

/-- The counter effect of one CSV row: `rows_read` always, the two upsert
counters on non-skipped rows, and `appended_obs` only when the observation
key was absent. -/
def stepC (sid at_ : String) (db : DB) (c : Counts) (r : Row) : Counts :=
  if okRow r then
    ⟨c.rowsRead + 1, c.insertedProducts + 1, c.upsertCurrent + 1,
     c.appendedObs + (if db.obs sid (keyOf r) at_ = none then 1 else 0)⟩
  else ⟨c.rowsRead + 1, c.insertedProducts, c.upsertCurrent, c.appendedObs⟩

/-- One iteration of the row loop, on state and counters together. -/
def step (sid at_ src : String) (s : DB × Counts) (r : Row) : DB × Counts :=
  (stepDB sid at_ src s.1 r, stepC sid at_ s.1 s.2 r)

/-- The row loop of `load_sqlite.main` over the whole CSV. -/
def loadRows (sid at_ src : String) (db : DB) (rows : List Row) : DB × Counts :=
  rows.foldl (step sid at_ src) (db, ⟨0, 0, 0, 0⟩)

/-- The whole batch of `load_sqlite.main`: the store upsert followed by the
row loop, returning the final database and the printed counters. -/
def runLoad (sid at_ src chain : String) (sname scity saddr : Option String)
    (db : DB) (rows : List Row) : DB × Counts :=
  loadRows sid at_ src (upsertStore sid chain sname scity saddr at_ db) rows

/-- The counters reported to the caller, labelled as the four `print`
statements of `load_sqlite.main` label them.  There is no skipped-rows
counter. -/
def reportedCounts (c : Counts) : List (String × ℕ) :=
  [("Rows read", c.rowsRead), ("Products upserted", c.insertedProducts),
   ("current_prices upserted", c.upsertCurrent),
   ("price_observations appended", c.appendedObs)]

/-! ### The transaction structure of `load_sqlite.main`

The schema DDL is auto-committed by `executescript` before the batch
begins; the first batch `INSERT` (the store upsert) opens the implicit
transaction of the `sqlite3` module, and the single `conn.commit()` after
the loop closes it. -/

/-- The kinds of batch writes. -/
inductive WKind where
  | store
  | product
  | currentPrice
  | obsAttempt
deriving DecidableEq

/-- One event of the batch: a write inside the transaction, or the final
commit. -/
inductive Ev where
  | write (w : WKind)
  | commit
deriving DecidableEq

/-- The writes one CSV row issues (none when the row is skipped; the
observation insert is an attempt that may hit the swallowed duplicate-key
error but still happens inside the same transaction). -/
def rowEvents (r : Row) : List Ev :=
  if okRow r then [.write .product, .write .currentPrice, .write .obsAttempt] else []

/-- The event trace of one batch of `load_sqlite.main`: the store upsert,
the per-row writes, then the single commit. -/
def loadTrace (rows : List Row) : List Ev :=
  .write .store :: (rows.flatMap rowEvents ++ [.commit])

/-- Transaction semantics: a write joins the pending set; a commit moves
the pending writes to the durable (reader-visible) set. -/
def applyEv (s : List WKind × List WKind) (e : Ev) : List WKind × List WKind :=
  match e with
  | .write w => (s.1 ++ [w], s.2)
  | .commit => ([], s.2 ++ s.1)

/-- The pending and committed writes after executing an event list. -/
def commitState (t : List Ev) : List WKind × List WKind :=
  t.foldl applyEv ([], [])

/-- The write kinds of a trace, in order. -/
def writeKinds (t : List Ev) : List WKind :=
  t.filterMap (fun e => match e with | .write w => some w | .commit => none)

/-! ### Characterization helpers for the loader proofs -/

/-- The database part of the row loop. -/
def dbAfter (sid at_ src : String) (db : DB) (rows : List Row) : DB :=
  rows.foldl (stepDB sid at_ src) db

/-- Does row `r` survive the guard and target barcode `b`? -/
def matchB (b : String) (r : Row) : Bool := okRow r && (keyOf r == b)

/-- The last row of the batch that writes barcode `b`. -/
def lastMatch (b : String) (rows : List Row) : Option Row :=
  rows.foldl (fun a r => if matchB b r then some r else a) none

/-- The first row of the batch that writes barcode `b`. -/
def firstMatch (b : String) (rows : List Row) : Option Row :=
  rows.foldl (fun a r => coal a (if matchB b r then some r else none)) none

/-- The `products` cell after upserting a list of rows in order. -/
def mchain (l : List Row) (old : Option ProductR) : Option ProductR :=
  l.foldl (fun o r => some (upsertP (prodInc r) o)) old

/-- First non-null value of `g` over `l`, later rows taking precedence
(the accumulated `COALESCE` chain of one `products` field). -/
def dchain (g : Row → Option String) (l : List Row) : Option String :=
  l.foldl (fun a r => coal (g r) a) none

/-- Project a field out of an optional `products` row. -/
def pfield (f : ProductR → Option String) (o : Option ProductR) : Option String :=
  match o with
  | some p => f p
  | none => none

/-- A CSV row with only barcode and price set (concrete test rows). -/
def mkRow (b p : Option String) : Row :=
  ⟨b, none, none, none, none, p, none, none, none, none, none, none⟩

/-! ## Lemmas about `coal` -/

theorem coal_some {α : Type} (v : α) (b : Option α) : coal (some v) b = some v := rfl

theorem coal_none {α : Type} (b : Option α) : coal none b = b := rfl

theorem coal_none_right {α : Type} (a : Option α) : coal a none = a := by
  cases a <;> rfl

theorem coal_assoc {α : Type} (a b c : Option α) :
    coal (coal a b) c = coal a (coal b c) := by
  cases a <;> rfl

theorem coal_absorb {α : Type} (a b : Option α) : coal a (coal a b) = coal a b := by
  cases a <;> rfl

theorem coal_isSome_right {α : Type} (a b : Option α) (h : b.isSome) :
    (coal a b).isSome := by
  cases a <;> simp [coal, h]

/-! ## Lemmas about rounding -/

theorem ratFloor_eq (q : ℚ) : q.floor = ⌊q⌋ := by
  rw [Rat.floor_def', ← Rat.floor_def]

theorem roundHalfEven_floor (q : ℚ) :
    roundHalfEven q =
      if q - (⌊q⌋ : ℚ) < 1 / 2 then ⌊q⌋
      else if 1 / 2 < q - (⌊q⌋ : ℚ) then ⌊q⌋ + 1
      else if ⌊q⌋ % 2 = 0 then ⌊q⌋ else ⌊q⌋ + 1 := by
  rw [roundHalfEven, ratFloor_eq]

theorem roundHalfEven_fract_lt (q : ℚ) (h : q - (⌊q⌋ : ℚ) < 1 / 2) :
    roundHalfEven q = ⌊q⌋ := by
  rw [roundHalfEven_floor, if_pos h]

theorem roundHalfEven_intCast (n : ℤ) : roundHalfEven (n : ℚ) = n := by
  rw [roundHalfEven_fract_lt _ (by simp)]
  simp

theorem roundHalfEven_dist (q : ℚ) : |(roundHalfEven q : ℚ) - q| ≤ 1 / 2 := by
  have h0 : (0 : ℚ) ≤ q - (⌊q⌋ : ℚ) := sub_nonneg.2 (Int.floor_le q)
  have h1 : q - (⌊q⌋ : ℚ) < 1 := by
    have := Int.lt_floor_add_one q
    linarith
  rw [roundHalfEven_floor]
  split_ifs with hlt hgt hev <;> rw [abs_le] <;> constructor <;> push_cast <;> linarith

theorem roundHalfEven_tie_even (q : ℚ) (h : q - (⌊q⌋ : ℚ) = 1 / 2) :
    roundHalfEven q % 2 = 0 := by
  rw [roundHalfEven_floor, h, if_neg (lt_irrefl ((1 : ℚ) / 2)), if_neg (lt_irrefl ((1 : ℚ) / 2))]
  rcases Int.emod_two_eq ⌊q⌋ with h2 | h2
  · rw [if_pos h2]; exact h2
  · rw [if_neg (by omega)]; omega

/-! ## Lemmas about the comma-to-dot translation (C7) -/

theorem c2d_c2d (c : Char) : c2d (c2d c) = c2d c := by
  by_cases h : c = ','
  · subst h; rfl
  · simp [c2d, h]

theorem mapComma_idem (l : List Char) : mapComma (mapComma l) = mapComma l := by
  simp only [mapComma, List.map_map]
  exact List.map_congr_left (fun a _ => c2d_c2d a)

theorem mapComma_eq_of_avoid :
    ∀ (l m : List Char), '.' ∉ m → ',' ∉ m → (mapComma l = m ↔ l = m) := by
  intro l
  induction l with
  | nil => intro m _ _; simp [mapComma]
  | cons a t ih =>
      intro m h1 h2
      cases m with
      | nil => simp [mapComma]
      | cons b m' =>
          have hb1 : b ≠ '.' := fun h => h1 (h ▸ List.mem_cons_self b m')
          have hb2 : b ≠ ',' := fun h => h2 (h ▸ List.mem_cons_self b m')
          have hm1 : '.' ∉ m' := fun h => h1 (List.mem_cons_of_mem b h)
          have hm2 : ',' ∉ m' := fun h => h2 (List.mem_cons_of_mem b h)
          have hhd : c2d a = b ↔ a = b := by
            constructor
            · intro h
              by_cases ha : a = ','
              · exact absurd (by simpa [c2d, ha] using h) (Ne.symm hb1)
              · simpa [c2d, ha] using h
            · intro h
              subst h
              simp [c2d, hb2]
          simp only [mapComma, List.map_cons, List.cons.injEq]
          rw [hhd]
          exact and_congr_right (fun _ => ih m' hm1 hm2)

theorem agorotL_comma_dot (l : List Char) : agorotL (mapComma l) = agorotL l := by
  have e1 : (mapComma l = [] ∨ mapComma l = "None".toList) ↔
      (l = [] ∨ l = "None".toList) := by
    rw [mapComma_eq_of_avoid l [] (by decide) (by decide),
      mapComma_eq_of_avoid l "None".toList (by decide) (by decide)]
  simp only [agorotL, e1, mapComma_idem]

section Claims

attribute [local semireducible] Rat.mul Rat.add Rat.sub Rat.inv Rat.ofScientific

/-- C7 (amended): using `.` or `,` as the decimal separator yields the same
integer minor-unit value (conjunct 1, and the `"12,50"`/`"12.50"`
examples); the conversion multiplies the parsed value by 100 and rounds to
the nearest integer — but with ties going to the EVEN integer (Python
`round`), not away from zero as the claim states (conjuncts 4 and 5 state
nearest-integer and tie-to-even); a string that fails decimal parsing
yields a null price rather than an exception (conjunct 6, totality being
built into the model), and such a record is dropped by the loader guard
(conjunct 7). -/
theorem c7_price_normalization :
    (∀ l : List Char, agorotL (mapComma l) = agorotL l)
    ∧ agorot (some "12,50") = some 1250
    ∧ agorot (some "12.50") = some 1250
    ∧ (∀ q : ℚ, |(roundHalfEven q : ℚ) - q| ≤ 1 / 2)
    ∧ (∀ q : ℚ, q - (⌊q⌋ : ℚ) = 1 / 2 → roundHalfEven q % 2 = 0)
    ∧ (∀ s : String, pyFloatL (mapComma s.toList) = none → agorot (some s) = none)
    ∧ (∀ r : Row, priceA r = none → okRow r = false) := by
  refine ⟨agorotL_comma_dot, by decide, by decide, roundHalfEven_dist,
    roundHalfEven_tie_even, ?_, ?_⟩
  · intro s h
    show agorotL s.toList = none
    rw [agorotL]
    split
    · rfl
    · rw [h]
  · intro r h
    simp [okRow, h]

/-- C7 witness: a non-numeric price string parses to `none` and `agorot`
returns null instead of raising. -/
theorem c7_witness :
    pyFloatL (mapComma "abc".toList) = none ∧ agorot (some "abc") = none :=
  ⟨by decide, c7_price_normalization.2.2.2.2.2.1 "abc" (by decide)⟩

/-- C7 counterexample: the claim says the conversion rounds half away from
zero, but on the valid decimal price string `"0.125"` (which parses to
`1/8`; times 100 this is exactly `12.5`) the code rounds half to even and
returns `12`, while half-away-from-zero would give `13`. -/
theorem c7_counterexample :
    pyFloatL (mapComma "0.125".toList) = some (1 / 8)
    ∧ agorot (some "0.125") = some 12
    ∧ roundHalfAway ((1 / 8 : ℚ) * 100) = 13
    ∧ (12 : ℤ) ≠ 13 :=
  ⟨by decide, by decide, by decide, by decide⟩

/-- C3: the unit-price contract of `per100`.  Conjunct 1: the result is
`(null, null)` exactly when the price is null, the quantity is null or
non-positive, or the unit kind is not gram/milliliter (`"unit"` and
unknown kinds included).  Conjunct 2: otherwise it returns
`round(price / (qty / 100), 2)` with the label `per_100g` / `per_100ml`.
Conjunct 3: that value is the nearest multiple of one hundredth (one minor
unit of a major-unit price), and a whole number of minor units.  Conjunct
4: re-rounding to integer minor units (as the loader's `agorot` does when
it re-reads the serialized value) equals rounding the exact quotient to
the nearest integer minor unit directly.  Conjuncts 5-7: the three
examples of the claim. -/
theorem c3_per100_contract :
    (∀ (p q : Option ℚ) (k : Option String),
        per100 p q k = (none, none) ↔
          p = none ∨ q = none ∨ (∃ x, q = some x ∧ x ≤ 0)
            ∨ (k ≠ some "g" ∧ k ≠ some "ml"))
    ∧ (∀ (pv qv : ℚ) (k : Option String), 0 < qv →
        (k = some "g" →
          per100 (some pv) (some qv) k =
            (some (round2 (pv / (qv / 100))), some "per_100g"))
        ∧ (k = some "ml" → k ≠ some "g" →
          per100 (some pv) (some qv) k =
            (some (round2 (pv / (qv / 100))), some "per_100ml")))
    ∧ (∀ x : ℚ, |round2 x - x| ≤ 1 / 200 ∧ ∃ z : ℤ, round2 x * 100 = (z : ℚ))
    ∧ (∀ x : ℚ, roundHalfEven (round2 x * 100) = roundHalfEven (x * 100))
    ∧ per100 (some 1250) (some 250) (some "g") = (some 500, some "per_100g")
    ∧ per100 (some 1250) (some 250) (some "unit") = (none, none)
    ∧ per100 (some 1250) (some 0) (some "g") = (none, none) := by
  have hmul : ∀ x : ℚ, round2 x * 100 = ((roundHalfEven (x * 100) : ℤ) : ℚ) := by
    intro x
    rw [round2]
    field_simp
  refine ⟨?_, ?_, ?_, ?_, by decide, by decide, by decide⟩
  · intro p q k
    match p, q with
    | none, _ => simp [per100]
    | some pv, none => simp [per100]
    | some pv, some qv =>
        rw [per100]
        split_ifs with hq hg hm
        · simp [hq]
        · subst hg
          simp [hq]
        · subst hm
          simp [hq, hg]
        · simp [hq, hg, hm]
  · intro pv qv k hq
    constructor
    · intro hg
      rw [per100, if_neg (not_le.2 hq), if_pos hg]
    · intro hm hg
      rw [per100, if_neg (not_le.2 hq), if_neg hg, if_pos hm]
  · intro x
    constructor
    · have hd := roundHalfEven_dist (x * 100)
      rw [round2]
      have : (roundHalfEven (x * 100) : ℚ) / 100 - x =
          ((roundHalfEven (x * 100) : ℚ) - x * 100) / 100 := by ring
      rw [this, abs_div]
      rw [abs_of_pos (by norm_num : (0 : ℚ) < 100)]
      linarith
    · exact ⟨roundHalfEven (x * 100), hmul x⟩
  · intro x
    rw [hmul x, roundHalfEven_intCast]

/-- C3 witness: the gram example, with the positivity hypothesis
discharged at `250`. -/
theorem c3_witness :
    (0 : ℚ) < 250
    ∧ per100 (some 1250) (some 250) (some "g") = (some (round2 (1250 / (250 / 100))), some "per_100g") :=
  ⟨by norm_num, (c3_per100_contract.2.1 1250 250 (some "g") (by norm_num)).1 rfl⟩

/-! ## Permutation invariance of the promotion aggregation (C4, C8) -/

theorem any_perm {α : Type} {l₁ l₂ : List α} (h : l₁.Perm l₂) (f : α → Bool) :
    l₁.any f = l₂.any f := by
  cases hb : l₂.any f with
  | true =>
      rw [List.any_eq_true] at hb ⊢
      rcases hb with ⟨a, ha, hf⟩
      exact ⟨a, h.mem_iff.2 ha, hf⟩
  | false =>
      rw [List.any_eq_false] at hb ⊢
      intro a ha
      exact hb a (h.mem_iff.1 ha)

theorem sortStr_perm_eq {l₁ l₂ : List String} (h : l₁.Perm l₂) :
    sortStr l₁ = sortStr l₂ :=
  List.eq_of_perm_of_sorted
    ((List.perm_insertionSort _ _).trans (h.trans (List.perm_insertionSort _ _).symm))
    (List.sorted_insertionSort _ _) (List.sorted_insertionSort _ _)

theorem joinSortedDedup_perm {l₁ l₂ : List String} (h : l₁.Perm l₂) :
    joinSortedDedup l₁ = joinSortedDedup l₂ := by
  unfold joinSortedDedup
  rw [sortStr_perm_eq ((h.filter _).dedup)]

theorem groupAgg_perm {g₁ g₂ : List PromoLine} (h : g₁.Perm g₂) :
    groupAgg g₁ = groupAgg g₂ := by
  unfold groupAgg
  rw [joinSortedDedup_perm (h.map _), joinSortedDedup_perm (h.map _),
    any_perm h _, any_perm h _]

/-- C4: promotion aggregation is order-independent and deterministic.
Conjunct 1: permuting the multiset of promotion lines leaves every
barcode's aggregate (sorted deduplicated comma-joined id and reward-type
sets, OR-ed gift/multi flags) byte-identical.  Conjunct 2: a barcode with
zero promotion lines is absent from the aggregate.  Conjunct 3: the
aggregate fields are the sorted deduplicated joins and the OR of the
group's flags, as the claim describes them. -/
theorem c4_aggregation_order_independent :
    (∀ (l₁ l₂ : List PromoLine), l₁.Perm l₂ → ∀ b, aggregate l₁ b = aggregate l₂ b)
    ∧ (∀ (l : List PromoLine) (b : String),
        aggregate l b = none ↔ ∀ x ∈ l, x.itemCode ≠ b)
    ∧ (∀ (l : List PromoLine) (b : String),
        aggregate l b =
          if groupOf l b = [] then none
          else some
            ⟨joinSortedDedup ((groupOf l b).map (fun x => x.promotionId)),
             joinSortedDedup ((groupOf l b).map (fun x => x.rewardType)),
             if (groupOf l b).any (fun x => x.isGift == "1") then "1" else "0",
             if (groupOf l b).any (fun x => x.allowMulti == "1") then "1" else "0"⟩) := by
  refine ⟨?_, ?_, fun l b => rfl⟩
  · intro l₁ l₂ h b
    have hg : (groupOf l₁ b).Perm (groupOf l₂ b) := h.filter _
    unfold aggregate
    by_cases h1 : groupOf l₁ b = []
    · have h2 : groupOf l₂ b = [] := by
        rw [h1] at hg
        exact hg.symm.eq_nil
      rw [if_pos h1, if_pos h2]
    · have h2 : groupOf l₂ b ≠ [] := by
        intro h2
        rw [h2] at hg
        exact h1 hg.eq_nil
      rw [if_neg h1, if_neg h2, groupAgg_perm hg]
  · intro l b
    unfold aggregate
    by_cases h1 : groupOf l b = []
    · rw [if_pos h1]
      simp only [true_iff]
      intro x hx hc
      have : x ∈ groupOf l b := by
        rw [groupOf, List.mem_filter]
        exact ⟨hx, by simp [hc]⟩
      rw [h1] at this
      exact absurd this (List.not_mem_nil x)
    · rw [if_neg h1]
      simp only [reduceCtorEq, false_iff]
      intro hall
      apply h1
      rw [groupOf, List.filter_eq_nil_iff]
      intro x hx
      simp [hall x hx]

/-- C4 witness: a concrete two-line batch and its permutation aggregate
identically. -/
theorem c4_witness :
    ([⟨"111", "P2", "x", "1", ""⟩, ⟨"111", "P1", "club", "0", "1"⟩] : List PromoLine).Perm
      [⟨"111", "P1", "club", "0", "1"⟩, ⟨"111", "P2", "x", "1", ""⟩]
    ∧ aggregate [⟨"111", "P2", "x", "1", ""⟩, ⟨"111", "P1", "club", "0", "1"⟩] "111" =
      aggregate [⟨"111", "P1", "club", "0", "1"⟩, ⟨"111", "P2", "x", "1", ""⟩] "111" :=
  ⟨by decide, c4_aggregation_order_independent.1 _ _ (by decide) "111"⟩

/-- C8 (amended): in the aggregation that actually feeds `AnyGift` /
`AnyMulti`, a line's flag counts as true exactly when its raw value is the
exact string `"1"` (`(s == "1").any()` in the source) — not when it lies
in the case-insensitive token set `{"1", "true", "yes", "y", "t"}`.  That
token set belongs to the loader's `booly`, which is applied to the merged
`has_promo` column only (conjuncts 2-4). -/
theorem c8_flag_coercion :
    (∀ (lines : List PromoLine) (b : String) (row : AggR),
        aggregate lines b = some row →
          ((row.anyGift = "1" ↔ ∃ l ∈ lines, l.itemCode = b ∧ l.isGift = "1")
           ∧ (row.anyMulti = "1" ↔ ∃ l ∈ lines, l.itemCode = b ∧ l.allowMulti = "1")))
    ∧ (∀ s : String, booly (some s) = 1 ↔ pyLower (pyStrip s) ∈ boolyTokens)
    ∧ booly none = 0
    ∧ (∀ r : Row, hasPromoOf r = booly r.has_promo) := by
  refine ⟨?_, ?_, by decide, fun r => rfl⟩
  · intro lines b row h
    unfold aggregate at h
    by_cases h1 : groupOf lines b = []
    · rw [if_pos h1] at h
      exact absurd h (by simp)
    · rw [if_neg h1] at h
      have hrow := Option.some.inj h
      subst hrow
      constructor
      · show (if (groupOf lines b).any (fun l => l.isGift == "1") then "1" else "0") = "1"
            ↔ ∃ l ∈ lines, l.itemCode = b ∧ l.isGift = "1"
        by_cases ha : (groupOf lines b).any (fun l => l.isGift == "1") = true
        · rw [if_pos ha]
          constructor
          · intro _
            rw [List.any_eq_true] at ha
            rcases ha with ⟨x, hx, hfx⟩
            rw [groupOf, List.mem_filter] at hx
            exact ⟨x, hx.1, by simpa using hx.2, by simpa using hfx⟩
          · intro _
            rfl
        · rw [if_neg ha]
          constructor
          · intro h01
            exact absurd h01 (by decide)
          · intro hc
            exfalso
            apply ha
            rcases hc with ⟨x, hx, hxb, hx1⟩
            refine List.any_eq_true.2 ⟨x, ?_, by simp [hx1]⟩
            rw [groupOf, List.mem_filter]
            exact ⟨hx, by simp [hxb]⟩
      · show (if (groupOf lines b).any (fun l => l.allowMulti == "1") then "1" else "0") = "1"
            ↔ ∃ l ∈ lines, l.itemCode = b ∧ l.allowMulti = "1"
        by_cases ha : (groupOf lines b).any (fun l => l.allowMulti == "1") = true
        · rw [if_pos ha]
          constructor
          · intro _
            rw [List.any_eq_true] at ha
            rcases ha with ⟨x, hx, hfx⟩
            rw [groupOf, List.mem_filter] at hx
            exact ⟨x, hx.1, by simpa using hx.2, by simpa using hfx⟩
          · intro _
            rfl
        · rw [if_neg ha]
          constructor
          · intro h01
            exact absurd h01 (by decide)
          · intro hc
            exfalso
            apply ha
            rcases hc with ⟨x, hx, hxb, hx1⟩
            refine List.any_eq_true.2 ⟨x, ?_, by simp [hx1]⟩
            rw [groupOf, List.mem_filter]
            exact ⟨hx, by simp [hxb]⟩
  · intro s
    rw [booly, Option.getD_some, boolyS]
    by_cases h : pyLower (pyStrip s) ∈ boolyTokens
    · rw [if_pos h]
      simp [h]
    · rw [if_neg h]
      simp [h]

/-- C8 witness: a single-line group whose gift flag is the exact string
`"1"` aggregates to `AnyGift = "1"`. -/
theorem c8_witness :
    aggregate [(⟨"111", "P1", "club", "1", ""⟩ : PromoLine)] "111" =
      some ⟨"P1", "club", "1", "0"⟩
    ∧ ((⟨"P1", "club", "1", "0"⟩ : AggR).anyGift = "1" ↔
        ∃ l ∈ [(⟨"111", "P1", "club", "1", ""⟩ : PromoLine)],
          l.itemCode = "111" ∧ l.isGift = "1") :=
  ⟨by decide, (c8_flag_coercion.1 _ "111" _ (by decide)).1⟩

/-- C8 counterexample: a promotion line whose gift flag is `"true"` and
multi flag is `"yes"` — both in the claimed token set, as `booly` itself
confirms — aggregates to `AnyGift = "0"` and `AnyMulti = "0"`, because the
aggregation compares the raw value with the exact string `"1"` only. -/
theorem c8_counterexample :
    aggregate [(⟨"111", "P1", "club", "true", "yes"⟩ : PromoLine)] "111" =
      some ⟨"P1", "club", "0", "0"⟩
    ∧ boolyS "true" = 1 ∧ boolyS "yes" = 1 ∧ ("0" : String) ≠ "1" :=
  ⟨by decide, by decide, by decide, by decide⟩

/-! ## Characterization of the loader's row loop (C1, C2, C5, C10) -/

theorem coal_isSome_some {α : Type} (a : Option α) (v : α) : (coal a (some v)).isSome := by
  cases a <;> rfl

theorem stepDB_stores (sid at_ src : String) (db : DB) (r : Row) :
    (stepDB sid at_ src db r).stores = db.stores := by
  rw [stepDB]
  split <;> rfl

theorem stepDB_products (sid at_ src : String) (db : DB) (r : Row) (b : String) :
    (stepDB sid at_ src db r).products b =
      if matchB b r then some (upsertP (prodInc r) (db.products b)) else db.products b := by
  by_cases ho : okRow r = true
  · by_cases hb : keyOf r = b
    · subst hb
      simp [stepDB, matchB, ho]
    · have hb2 : b ≠ keyOf r := fun h => hb h.symm
      simp [stepDB, matchB, ho, hb, hb2]
  · simp [stepDB, matchB, ho]

theorem stepDB_current (sid at_ src : String) (db : DB) (r : Row) (s b : String) :
    (stepDB sid at_ src db r).current s b =
      if s = sid ∧ matchB b r then some (cpOf at_ r) else db.current s b := by
  by_cases ho : okRow r = true
  · by_cases hb : keyOf r = b
    · subst hb
      simp [stepDB, matchB, ho]
    · have hb2 : b ≠ keyOf r := fun h => hb h.symm
      simp [stepDB, matchB, ho, hb, hb2]
  · simp [stepDB, matchB, ho]

theorem stepDB_obs (sid at_ src : String) (db : DB) (r : Row) (s b t : String) :
    (stepDB sid at_ src db r).obs s b t =
      if s = sid ∧ t = at_ ∧ matchB b r then coal (db.obs s b t) (some (obsOf src r))
      else db.obs s b t := by
  by_cases ho : okRow r = true
  · by_cases hb : keyOf r = b
    · subst hb
      by_cases hs : s = sid
      · subst hs
        by_cases ht : t = at_
        · subst ht
          simp [stepDB, matchB, ho]
        · simp [stepDB, matchB, ho, ht]
      · simp [stepDB, matchB, ho, hs]
    · have hb2 : b ≠ keyOf r := fun h => hb h.symm
      simp [stepDB, matchB, ho, hb, hb2]
  · simp [stepDB, matchB, ho]

theorem stepDB_obs_isSome (sid at_ src : String) (db : DB) (r : Row) (s b t : String)
    (h : (db.obs s b t).isSome) : ((stepDB sid at_ src db r).obs s b t).isSome := by
  rw [stepDB_obs]
  split
  · exact coal_isSome_some _ _
  · exact h

theorem dbAfter_nil (sid at_ src : String) (db : DB) : dbAfter sid at_ src db [] = db := rfl

theorem dbAfter_cons (sid at_ src : String) (db : DB) (r : Row) (t : List Row) :
    dbAfter sid at_ src db (r :: t) = dbAfter sid at_ src (stepDB sid at_ src db r) t := rfl

theorem dbAfter_stores (sid at_ src : String) :
    ∀ (rows : List Row) (db : DB), (dbAfter sid at_ src db rows).stores = db.stores := by
  intro rows
  induction rows with
  | nil => intro db; rfl
  | cons r t ih =>
      intro db
      rw [dbAfter_cons, ih, stepDB_stores]

theorem mchain_cons (r : Row) (l : List Row) (old : Option ProductR) :
    mchain (r :: l) old = mchain l (some (upsertP (prodInc r) old)) := rfl

theorem dbAfter_products (sid at_ src : String) :
    ∀ (rows : List Row) (db : DB) (b : String),
      (dbAfter sid at_ src db rows).products b =
        mchain (rows.filter (matchB b)) (db.products b) := by
  intro rows
  induction rows with
  | nil => intro db b; rfl
  | cons r t ih =>
      intro db b
      rw [dbAfter_cons, ih, stepDB_products]
      by_cases hm : matchB b r = true
      · rw [if_pos hm, List.filter_cons_of_pos hm, mchain_cons]
      · rw [if_neg hm, List.filter_cons_of_neg (by simpa using hm)]

theorem lastMatch_nil (b : String) : lastMatch b [] = none := rfl

theorem lastMatch_acc (b : String) :
    ∀ (t : List Row) (a : Option Row),
      t.foldl (fun a r => if matchB b r then some r else a) a = coal (lastMatch b t) a := by
  intro t
  induction t with
  | nil => intro a; rfl
  | cons r t ih =>
      intro a
      show t.foldl _ (if matchB b r then some r else a) = _
      rw [ih]
      have h2 : lastMatch b (r :: t) = coal (lastMatch b t) (if matchB b r then some r else none) := by
        show t.foldl _ (if matchB b r then some r else none) = _
        rw [ih]
      rw [h2, coal_assoc]
      congr 1
      by_cases hm : matchB b r = true
      · rw [if_pos hm, if_pos hm]
        rfl
      · rw [if_neg hm, if_neg hm]
        rfl

theorem lastMatch_cons (b : String) (r : Row) (t : List Row) :
    lastMatch b (r :: t) = coal (lastMatch b t) (if matchB b r then some r else none) := by
  show t.foldl _ (if matchB b r then some r else none) = _
  rw [lastMatch_acc]

theorem dbAfter_current_ne (sid at_ src : String) {s : String} (hs : s ≠ sid) :
    ∀ (rows : List Row) (db : DB) (b : String),
      (dbAfter sid at_ src db rows).current s b = db.current s b := by
  intro rows
  induction rows with
  | nil => intro db b; rfl
  | cons r t ih =>
      intro db b
      rw [dbAfter_cons, ih, stepDB_current, if_neg (fun hc => hs hc.1)]

theorem dbAfter_current_sid (sid at_ src : String) :
    ∀ (rows : List Row) (db : DB) (b : String),
      (dbAfter sid at_ src db rows).current sid b =
        match lastMatch b rows with
        | some r => some (cpOf at_ r)
        | none => db.current sid b := by
  intro rows
  induction rows with
  | nil => intro db b; rfl
  | cons r t ih =>
      intro db b
      rw [dbAfter_cons, ih, lastMatch_cons]
      cases hl : lastMatch b t with
      | some x => rfl
      | none =>
          show (stepDB sid at_ src db r).current sid b = _
          rw [stepDB_current]
          by_cases hm : matchB b r = true
          · rw [if_pos ⟨rfl, hm⟩, if_pos hm]
            rfl
          · rw [if_neg (fun hc => hm hc.2), if_neg hm]
            rfl

theorem firstMatch_nil (b : String) : firstMatch b [] = none := rfl

theorem firstMatch_acc (b : String) :
    ∀ (t : List Row) (a : Option Row),
      t.foldl (fun a r => coal a (if matchB b r then some r else none)) a =
        coal a (firstMatch b t) := by
  intro t
  induction t with
  | nil =>
      intro a
      rw [firstMatch_nil, coal_none_right]
      rfl
  | cons r t ih =>
      intro a
      show t.foldl _ (coal a (if matchB b r then some r else none)) = _
      rw [ih]
      have h2 : firstMatch b (r :: t) =
          coal (if matchB b r then some r else none) (firstMatch b t) := by
        show t.foldl _ (coal none (if matchB b r then some r else none)) = _
        rw [ih, coal_none]
      rw [h2, coal_assoc]

theorem firstMatch_cons (b : String) (r : Row) (t : List Row) :
    firstMatch b (r :: t) = coal (if matchB b r then some r else none) (firstMatch b t) := by
  show t.foldl _ (coal none (if matchB b r then some r else none)) = _
  rw [firstMatch_acc, coal_none]

theorem dbAfter_obs_sid (sid at_ src : String) :
    ∀ (rows : List Row) (db : DB) (b : String),
      (dbAfter sid at_ src db rows).obs sid b at_ =
        coal (db.obs sid b at_) ((firstMatch b rows).map (obsOf src)) := by
  intro rows
  induction rows with
  | nil =>
      intro db b
      show db.obs sid b at_ = coal (db.obs sid b at_) none
      rw [coal_none_right]
  | cons r t ih =>
      intro db b
      rw [dbAfter_cons, ih, stepDB_obs, firstMatch_cons]
      by_cases hm : matchB b r = true
      · rw [if_pos ⟨rfl, rfl, hm⟩, if_pos hm]
        cases db.obs sid b at_ <;> rfl
      · rw [if_neg (fun hc => hm hc.2.2), if_neg hm, coal_none]

theorem firstMatch_isSome_of_mem (b : String) :
    ∀ (rows : List Row) (r : Row), r ∈ rows → matchB b r = true →
      (firstMatch b rows).isSome := by
  intro rows
  induction rows with
  | nil => intro r h; exact absurd h (List.not_mem_nil r)
  | cons x t ih =>
      intro r hr hm
      rw [firstMatch_cons]
      rcases List.mem_cons.1 hr with h | h
      · subst h
        rw [if_pos hm, coal_some]
        rfl
      · by_cases hmx : matchB b x = true
        · rw [if_pos hmx, coal_some]
          rfl
        · rw [if_neg hmx, coal_none]
          exact ih r h hm

theorem mchain_some_acc : ∀ (l : List Row) (p : ProductR),
    ∃ p2, mchain l (some p) = some p2 := by
  intro l
  induction l with
  | nil => intro p; exact ⟨p, rfl⟩
  | cons r t ih =>
      intro p
      rw [mchain_cons]
      exact ih _

theorem dchain_nil (g : Row → Option String) : dchain g [] = none := rfl

theorem dchain_acc (g : Row → Option String) :
    ∀ (l : List Row) (a : Option String),
      l.foldl (fun a r => coal (g r) a) a = coal (dchain g l) a := by
  intro l
  induction l with
  | nil => intro a; rfl
  | cons r t ih =>
      intro a
      show t.foldl _ (coal (g r) a) = _
      rw [ih]
      have h2 : dchain g (r :: t) = coal (dchain g t) (coal (g r) none) := by
        show t.foldl _ (coal (g r) none) = _
        rw [ih]
      rw [h2, coal_none_right, coal_assoc]

theorem dchain_cons (g : Row → Option String) (r : Row) (t : List Row) :
    dchain g (r :: t) = coal (dchain g t) (g r) := by
  show t.foldl _ (coal (g r) none) = _
  rw [dchain_acc, coal_none_right]

theorem dchain_none (g : Row → Option String) :
    ∀ (l : List Row), (∀ r ∈ l, g r = none) → dchain g l = none := by
  intro l
  induction l with
  | nil => intro _; rfl
  | cons r t ih =>
      intro h
      rw [dchain_cons, ih (fun x hx => h x (List.mem_cons_of_mem r hx)),
        h r (List.mem_cons_self r t)]
      rfl

theorem mchain_field (f : ProductR → Option String)
    (hf : ∀ inc p, f (upsertP inc (some p)) = coal (f inc) (f p)) :
    ∀ (l : List Row) (old : Option ProductR),
      pfield f (mchain l old) =
        coal (dchain (fun r => f (prodInc r)) l) (pfield f old) := by
  intro l
  induction l with
  | nil => intro old; rw [dchain_nil, coal_none]; rfl
  | cons r t ih =>
      intro old
      rw [mchain_cons, ih, dchain_cons]
      cases old with
      | none =>
          show coal _ (f (prodInc r)) = coal _ (pfield f none)
          rw [coal_assoc]
          congr 1
          show f (prodInc r) = coal (f (prodInc r)) none
          rw [coal_none_right]
      | some p =>
          show coal _ (f (upsertP (prodInc r) (some p))) = coal _ (f p)
          rw [hf, coal_assoc]

theorem mchain_mchain : ∀ (l : List Row) (old : Option ProductR),
    mchain l (mchain l old) = mchain l old := by
  intro l old
  cases l with
  | nil => rfl
  | cons r t =>
      obtain ⟨p1, hp1⟩ : ∃ p1, mchain (r :: t) old = some p1 := by
        rw [mchain_cons]
        exact mchain_some_acc t _
      obtain ⟨p2, hp2⟩ : ∃ p2, mchain (r :: t) (some p1) = some p2 :=
        mchain_some_acc (r :: t) p1
      rw [hp1, hp2]
      have key : ∀ (f : ProductR → Option String),
          (∀ inc p, f (upsertP inc (some p)) = coal (f inc) (f p)) → f p2 = f p1 := by
        intro f hf
        have h1 := mchain_field f hf (r :: t) old
        have h2 := mchain_field f hf (r :: t) (some p1)
        rw [hp1] at h1
        rw [hp2] at h2
        have h1' : f p1 = coal (dchain (fun r => f (prodInc r)) (r :: t)) (pfield f old) := h1
        have h2' : f p2 = coal (dchain (fun r => f (prodInc r)) (r :: t)) (f p1) := h2
        rw [h1', coal_absorb] at h2'
        rw [h2', h1']
      congr 1
      exact ProductR.ext (key _ (fun inc p => rfl)) (key _ (fun inc p => rfl))
        (key _ (fun inc p => rfl)) (key _ (fun inc p => rfl))

theorem foldl_step_fst (sid at_ src : String) :
    ∀ (rows : List Row) (db : DB) (c : Counts),
      (rows.foldl (step sid at_ src) (db, c)).1 = dbAfter sid at_ src db rows := by
  intro rows
  induction rows with
  | nil => intro db c; rfl
  | cons r t ih =>
      intro db c
      exact ih _ _

theorem runLoad_fst (sid at_ src chain : String) (sn sc sa : Option String)
    (db : DB) (rows : List Row) :
    (runLoad sid at_ src chain sn sc sa db rows).1 =
      dbAfter sid at_ src (upsertStore sid chain sn sc sa at_ db) rows :=
  foldl_step_fst sid at_ src rows _ _

theorem stepC_rowsRead (sid at_ : String) (db : DB) (c : Counts) (r : Row) :
    (stepC sid at_ db c r).rowsRead = c.rowsRead + 1 := by
  rw [stepC]
  split <;> rfl

theorem stepC_inserted (sid at_ : String) (db : DB) (c : Counts) (r : Row) :
    (stepC sid at_ db c r).insertedProducts =
      c.insertedProducts + (if okRow r then 1 else 0) := by
  rw [stepC]
  by_cases h : okRow r = true
  · rw [if_pos h, if_pos h]
  · rw [if_neg h, if_neg h]
    rfl

theorem stepC_upsertC (sid at_ : String) (db : DB) (c : Counts) (r : Row) :
    (stepC sid at_ db c r).upsertCurrent =
      c.upsertCurrent + (if okRow r then 1 else 0) := by
  rw [stepC]
  by_cases h : okRow r = true
  · rw [if_pos h, if_pos h]
  · rw [if_neg h, if_neg h]
    rfl

theorem counts_rowsRead (sid at_ src : String) :
    ∀ (rows : List Row) (db : DB) (c : Counts),
      ((rows.foldl (step sid at_ src) (db, c)).2).rowsRead = c.rowsRead + rows.length := by
  intro rows
  induction rows with
  | nil => intro db c; rfl
  | cons r t ih =>
      intro db c
      show ((t.foldl _ (stepDB sid at_ src db r, stepC sid at_ db c r)).2).rowsRead = _
      rw [ih, stepC_rowsRead, List.length_cons]
      omega

theorem counts_inserted (sid at_ src : String) :
    ∀ (rows : List Row) (db : DB) (c : Counts),
      ((rows.foldl (step sid at_ src) (db, c)).2).insertedProducts =
        c.insertedProducts + (rows.filter okRow).length := by
  intro rows
  induction rows with
  | nil => intro db c; rfl
  | cons r t ih =>
      intro db c
      show ((t.foldl _ (stepDB sid at_ src db r, stepC sid at_ db c r)).2).insertedProducts = _
      rw [ih, stepC_inserted]
      by_cases h : okRow r = true
      · rw [if_pos h, List.filter_cons_of_pos h, List.length_cons]
        omega
      · rw [if_neg h, List.filter_cons_of_neg (by simpa using h)]
        omega

theorem counts_upsertC (sid at_ src : String) :
    ∀ (rows : List Row) (db : DB) (c : Counts),
      ((rows.foldl (step sid at_ src) (db, c)).2).upsertCurrent =
        c.upsertCurrent + (rows.filter okRow).length := by
  intro rows
  induction rows with
  | nil => intro db c; rfl
  | cons r t ih =>
      intro db c
      show ((t.foldl _ (stepDB sid at_ src db r, stepC sid at_ db c r)).2).upsertCurrent = _
      rw [ih, stepC_upsertC]
      by_cases h : okRow r = true
      · rw [if_pos h, List.filter_cons_of_pos h, List.length_cons]
        omega
      · rw [if_neg h, List.filter_cons_of_neg (by simpa using h)]
        omega

theorem counts_appended_zero (sid at_ src : String) :
    ∀ (rows : List Row) (db : DB) (c : Counts),
      (∀ r ∈ rows, okRow r = true → (db.obs sid (keyOf r) at_).isSome) →
      ((rows.foldl (step sid at_ src) (db, c)).2).appendedObs = c.appendedObs := by
  intro rows
  induction rows with
  | nil => intro db c _; rfl
  | cons r t ih =>
      intro db c h
      show ((t.foldl _ (stepDB sid at_ src db r, stepC sid at_ db c r)).2).appendedObs = _
      rw [ih _ _ (fun x hx hok =>
        stepDB_obs_isSome sid at_ src db r _ _ _ (h x (List.mem_cons_of_mem r hx) hok))]
      rw [stepC]
      by_cases hok : okRow r = true
      · rw [if_pos hok]
        have hs := h r (List.mem_cons_self r t) hok
        have : ¬(db.obs sid (keyOf r) at_ = none) := by
          intro hn
          rw [hn] at hs
          exact absurd hs (by simp)
        show c.appendedObs + (if db.obs sid (keyOf r) at_ = none then 1 else 0) = _
        rw [if_neg this]
        rfl
      · rw [if_neg hok]

theorem upsertStore_products (sid chain : String) (sn sc sa : Option String)
    (at_ : String) (x : DB) (b : String) :
    (upsertStore sid chain sn sc sa at_ x).products b = x.products b := rfl

theorem upsertStore_current (sid chain : String) (sn sc sa : Option String)
    (at_ : String) (x : DB) (s b : String) :
    (upsertStore sid chain sn sc sa at_ x).current s b = x.current s b := rfl

theorem upsertStore_obs (sid chain : String) (sn sc sa : Option String)
    (at_ : String) (x : DB) (s b t : String) :
    (upsertStore sid chain sn sc sa at_ x).obs s b t = x.obs s b t := rfl

/-- C1: ingestion is idempotent.  Running the load a second time with the
identical canonical rows and the same `observed_at` appends zero new
`price_observations` rows (the second run's appended counter is zero),
leaves the `current_prices` table content identical to the state after the
first run, and leaves the `products` table identical as well — which in
particular means no `products` field regresses from non-null to null. -/
theorem c1_ingestion_idempotent (db : DB) (rows : List Row)
    (sid at_ src chain : String) (sn sc sa : Option String) :
    ((runLoad sid at_ src chain sn sc sa
        (runLoad sid at_ src chain sn sc sa db rows).1 rows).2).appendedObs = 0
    ∧ (runLoad sid at_ src chain sn sc sa
        (runLoad sid at_ src chain sn sc sa db rows).1 rows).1.current =
      (runLoad sid at_ src chain sn sc sa db rows).1.current
    ∧ (runLoad sid at_ src chain sn sc sa
        (runLoad sid at_ src chain sn sc sa db rows).1 rows).1.products =
      (runLoad sid at_ src chain sn sc sa db rows).1.products := by
  set R1 := (runLoad sid at_ src chain sn sc sa db rows).1 with hR1def
  have hR1 : R1 = dbAfter sid at_ src (upsertStore sid chain sn sc sa at_ db) rows :=
    runLoad_fst sid at_ src chain sn sc sa db rows
  have hR2 : (runLoad sid at_ src chain sn sc sa R1 rows).1 =
      dbAfter sid at_ src (upsertStore sid chain sn sc sa at_ R1) rows :=
    runLoad_fst sid at_ src chain sn sc sa R1 rows
  refine ⟨?_, ?_, ?_⟩
  · show ((rows.foldl (step sid at_ src)
        (upsertStore sid chain sn sc sa at_ R1, ⟨0, 0, 0, 0⟩)).2).appendedObs = 0
    refine counts_appended_zero sid at_ src rows _ _ ?_
    intro r hr hok
    show (R1.obs sid (keyOf r) at_).isSome
    rw [hR1, dbAfter_obs_sid]
    apply coal_isSome_right
    obtain ⟨x, hx⟩ := Option.isSome_iff_exists.1
      (firstMatch_isSome_of_mem (keyOf r) rows r hr (by simp [matchB, hok]))
    rw [hx]
    rfl
  · funext s b
    rw [hR2]
    by_cases hs : s = sid
    · rw [hs]
      rw [dbAfter_current_sid]
      conv_rhs => rw [hR1, dbAfter_current_sid]
      cases hl : lastMatch b rows with
      | some x => rfl
      | none =>
          show (R1.current sid b) = _
          rw [hR1, dbAfter_current_sid, hl]
    · rw [dbAfter_current_ne sid at_ src hs]
      rfl
  · funext b
    rw [hR2, dbAfter_products, upsertStore_products]
    conv_rhs => rw [hR1, dbAfter_products, upsertStore_products]
    conv_lhs => rw [hR1, dbAfter_products, upsertStore_products]
    exact mchain_mchain _ _

/-- C2: the products merge-keep invariant.  Conjunct 1: the upsert sets
each field to `COALESCE(incoming, existing)`.  Conjunct 2: an incoming
null never overwrites a stored value, field by field.  Conjunct 3: `norm`
maps empty/whitespace-only incoming strings to null, so empty incoming
values fall into the null case.  Conjunct 4 (whole-run): if the store
holds manufacturer `v` (e.g. `"Acme"`) for barcode `b` and every ingested
row has an empty/absent manufacturer, the ingestion leaves manufacturer
`v` in place. -/
theorem c2_product_merge_keep :
    (∀ (inc p : ProductR),
        upsertP inc (some p) =
          ⟨coal inc.name p.name, coal inc.manufacturer p.manufacturer,
           coal inc.country p.country, coal inc.description p.description⟩)
    ∧ (∀ (inc p : ProductR),
        (inc.name = none → (upsertP inc (some p)).name = p.name)
        ∧ (inc.manufacturer = none → (upsertP inc (some p)).manufacturer = p.manufacturer)
        ∧ (inc.country = none → (upsertP inc (some p)).country = p.country)
        ∧ (inc.description = none → (upsertP inc (some p)).description = p.description))
    ∧ (∀ s : Option String, norm s = none ↔ pyStrip (s.getD "") = "")
    ∧ (∀ (db : DB) (rows : List Row) (sid at_ src chain : String)
        (sn sc sa : Option String) (b : String) (p : ProductR) (v : String),
        db.products b = some p → p.manufacturer = some v →
        (∀ r ∈ rows, norm r.manufacturer = none) →
        pfield ProductR.manufacturer
          ((runLoad sid at_ src chain sn sc sa db rows).1.products b) = some v) := by
  refine ⟨fun inc p => rfl, ?_, ?_, ?_⟩
  · intro inc p
    refine ⟨?_, ?_, ?_, ?_⟩ <;> intro h <;> show coal _ _ = _ <;> rw [h, coal_none]
  · intro s
    rw [norm]
    by_cases h : pyStrip (s.getD "") = ""
    · simp [h]
    · simp [h]
  · intro db rows sid at_ src chain sn sc sa b p v hdb hman hall
    rw [runLoad_fst, dbAfter_products, upsertStore_products, hdb,
      mchain_field ProductR.manufacturer (fun inc p => rfl)]
    have hd : dchain (fun r => (prodInc r).manufacturer) (rows.filter (matchB b)) = none := by
      refine dchain_none _ _ ?_
      intro r hr
      exact hall r (List.mem_of_mem_filter hr)
    rw [hd, coal_none]
    show p.manufacturer = some v
    exact hman

/-- C2 witness: a store holding manufacturer `"Acme"` for barcode `111`,
re-ingested with an incoming empty manufacturer, retains `"Acme"`. -/
theorem c2_witness :
    ({ emptyDB with products := fun b =>
        if b = "111" then some ⟨none, some "Acme", none, none⟩ else none } : DB).products
        "111" = some ⟨none, some "Acme", none, none⟩
    ∧ (∀ r ∈ [({ mkRow (some "111") (some "10.00") with manufacturer := some "" } : Row)],
        norm r.manufacturer = none)
    ∧ pfield ProductR.manufacturer
        ((runLoad "072" "2025-08-28 07:06" "merged.csv" "7290172900007" none none none
          { emptyDB with products := fun b =>
              if b = "111" then some ⟨none, some "Acme", none, none⟩ else none }
          [{ mkRow (some "111") (some "10.00") with manufacturer := some "" }]).1.products
          "111") = some "Acme" :=
  ⟨by decide, by decide,
    c2_product_merge_keep.2.2.2 _ _ "072" "2025-08-28 07:06" "merged.csv" "7290172900007"
      none none none "111" ⟨none, some "Acme", none, none⟩ "Acme"
      (by decide) rfl (by decide)⟩

/-- C10: the deliberate column swap of the loader.  Conjunct 1: the
incoming `products` values take `products.name` from the canonical
`description` column (the long text) and `products.description` from the
canonical `name` column (the short label).  Conjunct 2: for a fresh
barcode the persisted `products` row therefore has the two fields swapped
relative to their names in the canonical file. -/
theorem c10_product_column_swap :
    (∀ r : Row, prodInc r =
      ⟨norm r.description, norm r.manufacturer, norm r.country, norm r.name⟩)
    ∧ (∀ (db : DB) (r : Row) (sid at_ src chain : String) (sn sc sa : Option String),
        okRow r = true → db.products (keyOf r) = none →
        (runLoad sid at_ src chain sn sc sa db [r]).1.products (keyOf r) =
          some ⟨norm r.description, norm r.manufacturer, norm r.country, norm r.name⟩) := by
  refine ⟨fun r => rfl, ?_⟩
  intro db r sid at_ src chain sn sc sa hok hnone
  rw [runLoad_fst, dbAfter_products, upsertStore_products, hnone]
  have hm : matchB (keyOf r) r = true := by simp [matchB, hok]
  rw [List.filter_cons_of_pos hm]
  rfl

/-- C10 witness: a concrete row whose short `name` is `"Short"` and long
`description` is `"Long text"` is stored with `products.name = "Long
text"` and `products.description = "Short"`. -/
theorem c10_witness :
    okRow ({ mkRow (some "111") (some "10.00") with
      name := some "Short", description := some "Long text" } : Row) = true
    ∧ (runLoad "072" "2025-08-28 07:06" "merged.csv" "7290172900007" none none none emptyDB
        [{ mkRow (some "111") (some "10.00") with
            name := some "Short", description := some "Long text" }]).1.products
        (keyOf ({ mkRow (some "111") (some "10.00") with
            name := some "Short", description := some "Long text" } : Row)) =
      some ⟨some "Long text", none, none, some "Short"⟩ := by
  constructor
  · decide
  · rw [c10_product_column_swap.2 emptyDB _ "072" "2025-08-28 07:06" "merged.csv"
      "7290172900007" none none none (by decide) rfl]
    decide

theorem stepDB_skip (sid at_ src : String) (db : DB) (r : Row) (h : okRow r = false) :
    stepDB sid at_ src db r = db := by
  rw [stepDB, if_neg (by simp [h])]

theorem dbAfter_filter (sid at_ src : String) :
    ∀ (rows : List Row) (db : DB),
      dbAfter sid at_ src db rows = dbAfter sid at_ src db (rows.filter okRow) := by
  intro rows
  induction rows with
  | nil => intro db; rfl
  | cons r t ih =>
      intro db
      by_cases hok : okRow r = true
      · rw [List.filter_cons_of_pos hok, dbAfter_cons, dbAfter_cons, ih]
      · rw [List.filter_cons_of_neg (by simpa using hok), dbAfter_cons,
          stepDB_skip sid at_ src db r (by simpa using hok), ih]

theorem filter_not_length :
    ∀ rows : List Row,
      (rows.filter okRow).length + (rows.filter (fun r => !okRow r)).length = rows.length := by
  intro rows
  induction rows with
  | nil => rfl
  | cons r t ih =>
      by_cases hok : okRow r = true
      · rw [List.filter_cons_of_pos hok,
          List.filter_cons_of_neg (by simp [hok]), List.length_cons, List.length_cons]
        omega
      · rw [List.filter_cons_of_neg (by simpa using hok),
          List.filter_cons_of_pos (by simp [Bool.not_eq_true] at hok; simp [hok]),
          List.length_cons, List.length_cons]
        omega

/-- C5 (amended): rows with an empty (stripped) barcode or an unparsable
price are excluded from all three destination tables — running the batch
equals running it on the filtered rows (conjuncts 1 and 2).  But no
`rows_skipped` counter exists: the loader maintains and reports only
`rows_read`, `products_upserted`, `current_prices_upserted` and
`observations_appended` (conjuncts 3 and 5); the number of skipped rows is
recoverable by the caller only as `rows_read - products_upserted`
(conjunct 4). -/
theorem c5_skip_handling :
    (∀ r : Row, okRow r = false ↔ (keyOf r = "" ∨ priceA r = none))
    ∧ (∀ (db : DB) (rows : List Row) (sid at_ src chain : String)
        (sn sc sa : Option String),
        (runLoad sid at_ src chain sn sc sa db rows).1 =
          (runLoad sid at_ src chain sn sc sa db (rows.filter okRow)).1)
    ∧ (∀ (db : DB) (rows : List Row) (sid at_ src chain : String)
        (sn sc sa : Option String),
        (runLoad sid at_ src chain sn sc sa db rows).2.rowsRead = rows.length
        ∧ (runLoad sid at_ src chain sn sc sa db rows).2.insertedProducts =
          (rows.filter okRow).length
        ∧ (runLoad sid at_ src chain sn sc sa db rows).2.upsertCurrent =
          (rows.filter okRow).length)
    ∧ (∀ rows : List Row,
        rows.length - (rows.filter okRow).length = (rows.filter (fun r => !okRow r)).length)
    ∧ (∀ c : Counts, (reportedCounts c).map Prod.fst =
        ["Rows read", "Products upserted", "current_prices upserted",
         "price_observations appended"]) := by
  refine ⟨?_, ?_, ?_, ?_, fun c => rfl⟩
  · intro r
    cases hp : priceA r with
    | none => simp [okRow, hp]
    | some z => simp [okRow, hp]
  · intro db rows sid at_ src chain sn sc sa
    rw [runLoad_fst, runLoad_fst]
    exact dbAfter_filter sid at_ src rows _
  · intro db rows sid at_ src chain sn sc sa
    refine ⟨?_, ?_, ?_⟩
    · show ((rows.foldl (step sid at_ src) (_, ⟨0, 0, 0, 0⟩)).2).rowsRead = rows.length
      rw [counts_rowsRead]
      exact Nat.zero_add _
    · show ((rows.foldl (step sid at_ src) (_, ⟨0, 0, 0, 0⟩)).2).insertedProducts =
        (rows.filter okRow).length
      rw [counts_inserted]
      exact Nat.zero_add _
    · show ((rows.foldl (step sid at_ src) (_, ⟨0, 0, 0, 0⟩)).2).upsertCurrent =
        (rows.filter okRow).length
      rw [counts_upsertC]
      exact Nat.zero_add _
  · intro rows
    have := filter_not_length rows
    omega

/-- C5 counterexample: a batch of three rows of which two are dropped (one
empty barcode, one unparsable price).  The loader's counters are
`(3, 1, 1, 1)` and the four reported counts are exactly those values: the
number of dropped rows, `2`, is not among the reported counts, so no
`rows_skipped` figure is reported to the caller. -/
theorem c5_counterexample :
    (runLoad "072" "2025-08-28 07:06" "merged.csv" "7290172900007" none none none emptyDB
        [mkRow (some "111") (some "10.00"), mkRow (some "") (some "10.00"),
         mkRow (some "222") (some "abc")]).2 = ⟨3, 1, 1, 1⟩
    ∧ (reportedCounts ⟨3, 1, 1, 1⟩).map Prod.snd = [3, 1, 1, 1]
    ∧ ([mkRow (some "111") (some "10.00"), mkRow (some "") (some "10.00"),
        mkRow (some "222") (some "abc")].filter (fun r => !okRow r)).length = 2
    ∧ (2 : ℕ) ∉ [3, 1, 1, 1] :=
  ⟨by decide, by decide, by decide, by decide⟩

/-! ## Transaction atomicity of the batch (C6) -/

theorem loadTrace_eq (rows : List Row) :
    loadTrace rows = (Ev.write WKind.store :: rows.flatMap rowEvents) ++ [Ev.commit] := rfl

theorem commit_not_mem_writes (rows : List Row) :
    Ev.commit ∉ (Ev.write WKind.store :: rows.flatMap rowEvents) := by
  intro h
  rcases List.mem_cons.1 h with h | h
  · exact absurd h (by simp)
  · rw [List.mem_flatMap] at h
    rcases h with ⟨r, _, hr⟩
    rw [rowEvents] at hr
    split at hr <;> simp at hr

theorem foldl_applyEv_no_commit :
    ∀ (t : List Ev), Ev.commit ∉ t → ∀ (p c : List WKind),
      t.foldl applyEv (p, c) = (p ++ writeKinds t, c) := by
  intro t
  induction t with
  | nil =>
      intro _ p c
      show (p, c) = (p ++ [], c)
      rw [List.append_nil]
  | cons e t ih =>
      intro h p c
      have he : Ev.commit ∉ t := fun hm => h (List.mem_cons_of_mem e hm)
      cases e with
      | write w =>
          show t.foldl applyEv (p ++ [w], c) = _
          rw [ih he]
          show (p ++ [w] ++ writeKinds t, c) = (p ++ (w :: writeKinds t), c)
          rw [List.append_assoc]
          rfl
      | commit => exact absurd (List.mem_cons_self _ _) h

/-- C6: transaction structure of the batch.  The batch trace consists of
the store upsert and per-row writes followed by a single commit: the
commit count is one and the commit is the last event (conjuncts 1 and 2).
Under the pending/committed transaction semantics (`commitState`), any
strict prefix of the trace — i.e. a batch interrupted by an unexpected
failure before the final commit — leaves NO committed writes visible to
readers (conjunct 3), while the complete trace commits the store upsert
and every per-row write at once (conjunct 4). -/
theorem c6_single_transaction (rows : List Row) :
    (loadTrace rows).count Ev.commit = 1
    ∧ (loadTrace rows).getLast? = some Ev.commit
    ∧ (∀ n, n < (loadTrace rows).length →
        (commitState ((loadTrace rows).take n)).2 = [])
    ∧ (commitState (loadTrace rows)).2 =
        WKind.store :: writeKinds (rows.flatMap rowEvents) := by
  have hW := commit_not_mem_writes rows
  refine ⟨?_, ?_, ?_, ?_⟩
  · rw [loadTrace_eq, List.count_append, List.count_eq_zero.2 hW]
    rfl
  · rw [loadTrace_eq, List.getLast?_concat]
  · intro n hn
    rw [loadTrace_eq] at hn ⊢
    rw [List.length_append, List.length_singleton] at hn
    have hle : n ≤ (Ev.write WKind.store :: rows.flatMap rowEvents).length := by omega
    rw [List.take_append_eq_append_take, Nat.sub_eq_zero_of_le hle, List.take_zero,
      List.append_nil]
    have hnc : Ev.commit ∉ (Ev.write WKind.store :: rows.flatMap rowEvents).take n :=
      fun hm => hW (List.mem_of_mem_take hm)
    rw [commitState, foldl_applyEv_no_commit _ hnc]
  · rw [loadTrace_eq, commitState, List.foldl_append, foldl_applyEv_no_commit _ hW]
    show ([], [] ++ ([] ++ writeKinds (Ev.write WKind.store :: rows.flatMap rowEvents))).2 = _
    rw [List.nil_append, List.nil_append]
    rfl

/-- C6 witness: interrupting the empty batch just after the store upsert
(prefix of length 1, short of the trace length 2) leaves nothing
committed. -/
theorem c6_witness :
    1 < (loadTrace []).length ∧ (commitState ((loadTrace []).take 1)).2 = [] :=
  ⟨by decide, (c6_single_transaction []).2.2.1 1 (by decide)⟩

/-! ## The canonical intermediate file format (C9) -/

/-- C9 (amended): for every batch with at least one price row, the merge
stage emits a header-bearing tabular file with exactly the sixteen claimed
columns in order (conjunct 1), rows sorted by name then barcode (conjunct
2), sixteen cells per row, each row produced from a price row joined with
its matched promotion aggregate or the unmatched defaults (conjuncts 3 and
4).  `PromotionIds`/`RewardTypes` are comma-joined sorted deduplicated
sets and `AnyGift`/`AnyMulti` are `"1"`/`"0"` — for MATCHED rows only
(conjunct 5); an unmatched row serializes all four aggregate cells as the
empty string, not `"0"` (conjunct 6).  `price` and `computed_unit_price`
serialize with Python float `repr` (minimal digits, e.g. `"12.5"`,
`"5.0"`), not as two-decimal strings, and `has_promo` is the boolean
literal `True`/`False`, true exactly when the `PromotionIds` cell is
non-empty (conjunct 6). -/
theorem c9_canonical_file_format :
    ∀ (prices : List PriceRow) (promos : List PromoLine) (out : List (List String)),
      mergeDay prices promos = some out →
        out.head? = some header16
        ∧ out.tail.Pairwise rowLe
        ∧ (∀ row ∈ out.tail, row.length = 16
            ∧ ∃ o ∈ mergedRecsOf prices promos, row = cellsOf o)
        ∧ (∀ o ∈ mergedRecsOf prices promos,
            (∃ p ∈ prices, o.d = dfpOf p)
            ∧ (o.agg = none → ∀ pr ∈ aggRowsOf promos, pr.1 ≠ o.d.barcode)
            ∧ (∀ a, o.agg = some a →
                ∃ pr ∈ aggRowsOf promos, pr.1 = o.d.barcode ∧ pr.2 = a))
        ∧ (∀ pr ∈ aggRowsOf promos, ∃ k,
            pr.1 = pyStrip k ∧ pr.2 = groupAgg (groupOf promos k)
            ∧ (pr.2.anyGift = "0" ∨ pr.2.anyGift = "1")
            ∧ (pr.2.anyMulti = "0" ∨ pr.2.anyMulti = "1"))
        ∧ (∀ o : OutRec,
            (cellsOf o).length = 16
            ∧ (cellsOf o).getD 2 "" = optFloatCell o.d.price
            ∧ (cellsOf o).getD 3 "" = optFloatCell o.d.quantity
            ∧ (cellsOf o).getD 5 "" = optFloatCell o.d.unitPrice
            ∧ ((cellsOf o).getD 7 "" = "True" ↔ (cellsOf o).getD 8 "" ≠ "")
            ∧ (o.agg = none →
                (cellsOf o).getD 8 "" = "" ∧ (cellsOf o).getD 9 "" = ""
                ∧ (cellsOf o).getD 10 "" = "" ∧ (cellsOf o).getD 11 "" = "")) := by
  intro prices promos out h
  rw [mergeDay] at h
  by_cases hp : prices.isEmpty
  · rw [if_pos hp] at h
    exact absurd h (by simp)
  · rw [if_neg hp] at h
    have hout := (Option.some.inj h).symm
    subst hout
    refine ⟨rfl, ?_, ?_, ?_, ?_, ?_⟩
    · show (((mergedRecsOf prices promos).insertionSort recLe).map cellsOf).Pairwise rowLe
      exact (List.sorted_insertionSort recLe (mergedRecsOf prices promos)).map
        cellsOf (fun a b hab => hab)
    · intro row hrow
      rcases List.mem_map.1 hrow with ⟨o, ho, rfl⟩
      exact ⟨rfl, o, (List.perm_insertionSort recLe (mergedRecsOf prices promos)).subset ho,
        rfl⟩
    · intro o ho
      rw [mergedRecsOf, List.mem_flatMap] at ho
      rcases ho with ⟨d, hd, hbr⟩
      rcases List.mem_map.1 hd with ⟨p, hpp, rfl⟩
      by_cases hms : ((aggRowsOf promos).filter (fun a => a.1 == (dfpOf p).barcode)).isEmpty
      · rw [if_pos hms] at hbr
        have ho2 : o = ⟨dfpOf p, none⟩ := by
          rcases List.mem_cons.1 hbr with h2 | h2
          · exact h2
          · exact absurd h2 (List.not_mem_nil o)
        subst ho2
        refine ⟨⟨p, hpp, rfl⟩, ?_, ?_⟩
        · intro _ pr hpr hc
          have hnil := List.isEmpty_iff.1 hms
          have : pr ∈ ((aggRowsOf promos).filter (fun a => a.1 == (dfpOf p).barcode)) := by
            rw [List.mem_filter]
            exact ⟨hpr, by simp [hc]⟩
          rw [hnil] at this
          exact absurd this (List.not_mem_nil pr)
        · intro a ha
          exact absurd ha (by simp)
      · rw [if_neg hms] at hbr
        rcases List.mem_map.1 hbr with ⟨a, ha, rfl⟩
        rw [List.mem_filter] at ha
        refine ⟨⟨p, hpp, rfl⟩, ?_, ?_⟩
        · intro hc
          exact absurd hc (by simp)
        · intro a2 ha2
          have : a2 = a.2 := (Option.some.inj ha2).symm
          subst this
          exact ⟨a, ha.1, by simpa using ha.2, rfl⟩
    · intro pr hpr
      rcases List.mem_map.1 hpr with ⟨k, hk, rfl⟩
      refine ⟨k, rfl, rfl, ?_, ?_⟩
      · show (if (groupOf promos k).any (fun l => l.isGift == "1") then "1" else "0") = "0"
          ∨ (if (groupOf promos k).any (fun l => l.isGift == "1") then "1" else "0") = "1"
        by_cases hg : (groupOf promos k).any (fun l => l.isGift == "1") = true
        · right
          rw [if_pos hg]
        · left
          rw [if_neg hg]
      · show (if (groupOf promos k).any (fun l => l.allowMulti == "1") then "1" else "0") = "0"
          ∨ (if (groupOf promos k).any (fun l => l.allowMulti == "1") then "1" else "0") = "1"
        by_cases hg : (groupOf promos k).any (fun l => l.allowMulti == "1") = true
        · right
          rw [if_pos hg]
        · left
          rw [if_neg hg]
    · intro o
      rcases o with ⟨d, agg⟩
      refine ⟨rfl, rfl, rfl, rfl, ?_, ?_⟩
      · cases agg with
        | none =>
            show ("False" : String) = "True" ↔ ("" : String) ≠ ""
            constructor
            · intro hc
              exact absurd hc (by decide)
            · intro hc
              exact absurd rfl hc
        | some a =>
            show (if a.promotionIds = "" then "False" else "True") = "True" ↔
              a.promotionIds ≠ ""
            by_cases hpi : a.promotionIds = ""
            · rw [if_pos hpi]
              constructor
              · intro hc
                exact absurd hc (by decide)
              · intro hc
                exact absurd hpi hc
            · rw [if_neg hpi]
              exact ⟨fun _ => hpi, fun _ => rfl⟩
      · intro ha
        have : agg = none := ha
        subst this
        exact ⟨rfl, rfl, rfl, rfl⟩

/-- C9 witness: a one-row batch with no promotions produces the header and
one data row. -/
theorem c9_witness :
    mergeDay [⟨"1", "", "", "", "", "", "", "", ""⟩] [] =
      some [header16, ["1", "", "", "", "", "", "", "False", "", "", "", "", "", "", "", ""]]
    ∧ [header16,
        ["1", "", "", "", "", "", "", "False", "", "", "", "", "", "", "", ""]].head? =
      some header16 :=
  ⟨by decide,
    (c9_canonical_file_format [⟨"1", "", "", "", "", "", "", "", ""⟩] []
      [header16, ["1", "", "", "", "", "", "", "False", "", "", "", "", "", "", "", ""]]
      (by decide)).1⟩

/-- C9 counterexample: the claim requires `price` and
`computed_unit_price` to be decimal strings with two decimal places, and
unmatched rows to get the `"0"` (false) flag defaults.  A concrete batch
of one priced row (`price = "12.50"`, 250 grams) and zero promotion lines
serializes `price` as `"12.5"` and `computed_unit_price` as `"5.0"` —
minimal-digit float reprs, not `"12.50"` / `"5.00"` — and serializes
`AnyGift`/`AnyMulti` as the empty string, not `"0"`.  An empty batch
raises (the `zip(*...)` unpacking) and emits no file at all. -/
theorem c9_counterexample :
    mergeDay [⟨"111", "A", "12.50", "250", "גרם", "", "", "", ""⟩] [] =
      some [header16,
        ["111", "A", "12.5", "250.0", "g", "5.0", "per_100g", "False",
         "", "", "", "", "", "", "", ""]]
    ∧ ("12.5" : String) ≠ "12.50"
    ∧ ("5.0" : String) ≠ "5.00"
    ∧ ("" : String) ≠ "0"
    ∧ mergeDay [] [] = none :=
  ⟨by decide, by decide, by decide, by decide, by decide⟩

end Claims

end PharmWatch
